import Mathlib

/-!
Verification development for the habitat crypto core
(components/core/src/crypto: artifact.rs, keys/cache.rs, keys/ring_key.rs).

Files are modelled as byte streams (`List Nat`); line-oriented reads follow
the semantics of `BufRead::read_line` (a read consumes bytes up to and
including the next newline, returning 0 bytes exactly at end of stream).
Strings such as error messages are modelled by a dedicated `Error`
inductive, one constructor per distinct message produced by the source.
Components of the repository whose sources are not available (the
`NamedRevision` parser, the generic `KeyPair` container, `get_key_revisions`,
the origin signing keys, the content digest, base64 and libsodium secretbox)
are modelled from the specification and marked as such in their doc comments.
-/

deriving instance DecidableEq for Except

/-- Byte rendering of a string literal (ASCII). -/
def strB (s : String) : List Nat := s.data.map Char.toNat

/-- Newline byte. -/
def NL : Nat := 10

/-- Whitespace predicate used by trimming, matching `str::trim` on the
ASCII whitespace that can occur in these protocols. -/
def isWS (c : Nat) : Bool := c = 32 || c = 9 || c = 10 || c = 13

/-- Semantics of a single `read_line` call: consume bytes up to and
including the first newline (or to end of stream); returns the consumed
line and the remaining stream.  The consumed line is empty exactly when
the stream was at end of file. -/
def readLine : List Nat → List Nat × List Nat
  | [] => ([], [])
  | c :: cs =>
    if c = 10 then ([10], cs)
    else
      let p := readLine cs
      (c :: p.1, p.2)

/-- Trim leading and trailing whitespace bytes, as `str::trim` does. -/
def trimB (l : List Nat) : List Nat :=
  ((l.dropWhile isWS).reverse.dropWhile isWS).reverse

/-- Decimal digit byte. -/
def isDigitB (c : Nat) : Bool := 48 ≤ c && c ≤ 57

/-- Error values returned by the modelled operations; one constructor per
distinct `Error::CryptoError` (or I/O) message in the source. -/
inductive Error where
  | cantReadFormatVersion : Error
  | unsupportedFormatVersion : List Nat → Error
  | cantReadOriginKeyName : Error
  | cannotParseNamedRevision : List Nat → Error
  | cantReadHashType : Error
  | unsupportedSignatureType : List Nat → Error
  | cantReadSignature : Error
  | cantDecodeSignature : Error
  | cantFindEndOfHeader : Error
  | nonEmptyDelimiter : List Nat → Error
  | missingPublicSigningKey : Error
  | artifactInvalid : Error
  | missingSecretKey : List Nat → Error
  | missingPublicKey : List Nat → Error
  | invalidNonceSize : Error
  | decryptionFailed : Error
  | noRevisionsFound : List Nat → Error
  | noSecretKeysFound : List Nat → Error
  | cantReadSymSecretKey : List Nat → Error
  | existingKeyHashDiffers : List Nat → Error
  | malformedKeyFile : Nat → Error
  | keyPayloadDecodeError : Error
  | keyFileNotFound : List Nat → Error
  | ioError : Error
  deriving DecidableEq, Repr

/-- A name paired with a key revision, the textual identity
`<name>-<revision>` of every key. -/
structure NamedRevision where
  name : List Nat
  revision : List Nat
  deriving DecidableEq, Repr

/-- Revision validity. Modelled from the spec: a revision is a fixed-width
14-digit timestamp string (keys/mod.rs, which holds `KeyRevision`, is not
among the available sources). -/
def validRevision (r : List Nat) : Bool := r.length = 14 && r.all isDigitB

/-- Split a byte string at its last dash, returning (name, suffix). -/
def splitLastDash (s : List Nat) : Option (List Nat × List Nat) :=
  let r := s.reverse
  let revTail := r.takeWhile (fun c => c ≠ 45)
  match r.dropWhile (fun c => c ≠ 45) with
  | [] => none
  | _ :: nameRev => some (nameRev.reverse, revTail.reverse)

/-- Modelled from the spec: `FromStr for NamedRevision` (keys/mod.rs is not
among the available sources). Splits the trailing revision suffix from the
name at the last dash; fails when there is no dash, when the name is empty,
or when the suffix is not a syntactically valid revision. -/
def parseNamedRevision (s : List Nat) : Except Error NamedRevision :=
  match splitLastDash s with
  | none => .error (.cannotParseNamedRevision s)
  | some (name, rev) =>
    if name ≠ [] ∧ validRevision rev = true then .ok ⟨name, rev⟩
    else .error (.cannotParseNamedRevision s)

/-- Success test of a modelled result. -/
def isOkE {α : Type} : Except Error α → Bool
  | .ok _ => true
  | .error _ => false

/-- Canonical rendering `<name>-<revision>` of an identity. -/
def NamedRevision.render (nr : NamedRevision) : List Nat :=
  nr.name ++ 45 :: nr.revision

/-- Modelled from the spec: the base64 crate is an external collaborator,
so the codec is modelled abstractly as an executable injective encoding on
byte lists whose output contains only the bytes 48 and 49 (never
whitespace), together with a decoder that fails on every byte stream not
produced by the encoder. -/
def b64encode : List Nat → List Nat
  | [] => []
  | n :: t => 48 :: (List.replicate n 49 ++ b64encode t)

/-- Modelled from the spec: decoder for the abstract base64 model,
scanning left to right with the count of the element currently being
decoded as accumulator. Inverse of `b64encode` on its image and failing
on every stream the encoder cannot produce. -/
def b64decodeAux : Option Nat → List Nat → Option (List Nat)
  | acc, [] =>
    match acc with
    | none => some []
    | some k => some [k]
  | acc, c :: t =>
    if c = 48 then
      match acc with
      | none => b64decodeAux (some 0) t
      | some k => (b64decodeAux (some 0) t).map (k :: ·)
    else if c = 49 then
      match acc with
      | none => none
      | some k => b64decodeAux (some (k + 1)) t
    else none

/-- Modelled from the spec: entry point of the abstract base64 decoder. -/
def b64decode (l : List Nat) : Option (List Nat) := b64decodeAux none l

theorem b64decodeAux_replicate (n k : Nat) (rest : List Nat) :
    b64decodeAux (some k) (List.replicate n 49 ++ rest) =
      b64decodeAux (some (k + n)) rest := by
  induction n generalizing k with
  | zero => simp
  | succ m ih =>
    simp only [List.replicate, List.cons_append, b64decodeAux,
      show ((49 : Nat) = 48) = False from by decide,
      show ((49 : Nat) = 49) = True from by decide,
      if_false, if_true, List.append_eq]
    rw [ih (k + 1)]
    have h : k + 1 + m = k + (m + 1) := by omega
    rw [h]

theorem b64decodeAux_encode (t : List Nat) :
    b64decodeAux none (b64encode t) = some t ∧
      ∀ k, b64decodeAux (some k) (b64encode t) = some (k :: t) := by
  induction t with
  | nil => simp [b64encode, b64decodeAux]
  | cons n t ih =>
    constructor
    · simp only [b64encode, b64decodeAux, if_pos rfl]
      rw [show (0 : Nat) = 0 + 0 from rfl, b64decodeAux_replicate n 0 (b64encode t)]
      simpa using ih.2 n
    · intro k
      simp only [b64encode, b64decodeAux, if_pos rfl]
      rw [show (0 : Nat) = 0 + 0 from rfl, b64decodeAux_replicate n 0 (b64encode t)]
      have := ih.2 n
      simp only [Nat.zero_add] at this ⊢
      rw [this]
      rfl

/-- The abstract codec round-trips: decoding an encoded byte list recovers
it exactly. -/
theorem b64decode_encode (l : List Nat) : b64decode (b64encode l) = some l :=
  (b64decodeAux_encode l).1

theorem b64encode_mem (l : List Nat) : ∀ c ∈ b64encode l, c = 48 ∨ c = 49 := by
  induction l with
  | nil => simp [b64encode]
  | cons n t ih =>
    intro c hc
    simp only [b64encode, List.mem_cons, List.mem_append, List.mem_replicate] at hc
    rcases hc with h | h | h
    · exact Or.inl h
    · exact Or.inr h.2
    · exact ih c h

theorem readLine_append_newline (l rest : List Nat) (h : ∀ c ∈ l, c ≠ 10) :
    readLine (l ++ 10 :: rest) = (l ++ [10], rest) := by
  induction l with
  | nil => simp [readLine]
  | cons a t ih =>
    have ha : a ≠ 10 := h a (by simp)
    have ht : ∀ c ∈ t, c ≠ 10 := fun c hc => h c (by simp [hc])
    simp [readLine, ha, ih ht]

theorem readLine_no_newline (l : List Nat) (h : ∀ c ∈ l, c ≠ 10) :
    readLine l = (l, []) := by
  induction l with
  | nil => simp [readLine]
  | cons a t ih =>
    have ha : a ≠ 10 := h a (by simp)
    have ht : ∀ c ∈ t, c ≠ 10 := fun c hc => h c (by simp [hc])
    simp [readLine, ha, ih ht]

theorem dropWhile_of_forall_not (m : List Nat) (h : ∀ c ∈ m, isWS c = false) :
    m.dropWhile isWS = m := by
  induction m with
  | nil => simp
  | cons a t ih =>
    have ha : isWS a = false := h a (by simp)
    simp [List.dropWhile, ha]

theorem trimB_of_forall_not (m : List Nat) (h : ∀ c ∈ m, isWS c = false) :
    trimB m = m := by
  unfold trimB
  rw [dropWhile_of_forall_not m h]
  rw [dropWhile_of_forall_not m.reverse (fun c hc => h c (List.mem_reverse.mp hc))]
  simp

theorem trimB_append_newline (m : List Nat) (h : ∀ c ∈ m, isWS c = false) :
    trimB (m ++ [10]) = m := by
  unfold trimB
  cases m with
  | nil => decide
  | cons a t =>
    have ha : isWS a = false := h a (by simp)
    rw [List.cons_append, List.dropWhile_cons_of_neg (by simp [ha])]
    have h1 : (a :: (t ++ [10])).reverse = 10 :: (t.reverse ++ [a]) := by simp
    rw [h1, List.dropWhile_cons_of_pos (by decide)]
    have h2 : ∀ c ∈ t.reverse ++ [a], isWS c = false := by
      intro c hc
      rcases List.mem_append.mp hc with hc | hc
      · exact h c (by simp [List.mem_reverse.mp hc])
      · simp only [List.mem_singleton] at hc
        simpa [hc] using ha
    rw [dropWhile_of_forall_not _ h2]
    simp

theorem takeWhile_append_stop (p : Nat → Bool) (a : List Nat) (b : Nat)
    (t : List Nat) (ha : ∀ c ∈ a, p c = true) (hb : p b = false) :
    (a ++ b :: t).takeWhile p = a := by
  induction a with
  | nil => simp [List.takeWhile, hb]
  | cons x xs ih =>
    have hx : p x = true := ha x (by simp)
    have hxs : ∀ c ∈ xs, p c = true := fun c hc => ha c (by simp [hc])
    simp [List.takeWhile, hx, ih hxs]

theorem dropWhile_append_stop (p : Nat → Bool) (a : List Nat) (b : Nat)
    (t : List Nat) (ha : ∀ c ∈ a, p c = true) (hb : p b = false) :
    (a ++ b :: t).dropWhile p = b :: t := by
  induction a with
  | nil => simp [List.dropWhile, hb]
  | cons x xs ih =>
    have hx : p x = true := ha x (by simp)
    have hxs : ∀ c ∈ xs, p c = true := fun c hc => ha c (by simp [hc])
    simp [List.dropWhile, hx, ih hxs]

theorem isDigitB_ne_45 (c : Nat) (h : isDigitB c = true) : c ≠ 45 := by
  simp only [isDigitB, Bool.and_eq_true, decide_eq_true_eq] at h
  omega

theorem isDigitB_not_ws (c : Nat) (h : isDigitB c = true) : isWS c = false := by
  simp only [isDigitB, Bool.and_eq_true, decide_eq_true_eq] at h
  simp only [isWS, Bool.or_eq_false_iff, decide_eq_false_iff_not]
  omega

theorem parseNamedRevision_render (name rev : List Nat) (hn : name ≠ [])
    (hr : validRevision rev = true) :
    parseNamedRevision (name ++ 45 :: rev) = .ok ⟨name, rev⟩ := by
  have hrall : ∀ c ∈ rev, isDigitB c = true := by
    have := (Bool.and_eq_true _ _).mp hr
    exact fun c hc => List.all_eq_true.mp this.2 c hc
  have hrev45 : ∀ c ∈ rev.reverse, (decide (c ≠ 45)) = true := by
    intro c hc
    simp only [decide_eq_true_eq]
    exact isDigitB_ne_45 c (hrall c (List.mem_reverse.mp hc))
  unfold parseNamedRevision splitLastDash
  rw [List.reverse_append, List.reverse_cons]
  rw [List.append_assoc]
  simp only [List.singleton_append]
  rw [takeWhile_append_stop _ rev.reverse 45 name.reverse hrev45 (by simp),
    dropWhile_append_stop _ rev.reverse 45 name.reverse hrev45 (by simp)]
  simp [hn, hr]

theorem not_ws_ne_10 (c : Nat) (h : isWS c = false) : c ≠ 10 := by
  intro hc
  subst hc
  simp [isWS] at h

/-- The fixed artifact format version literal `HART-1`. -/
def HART_FORMAT_VERSION : List Nat := strB "HART-1"

/-- The fixed signature hash type literal `BLAKE2b`. -/
def SIG_HASH_TYPE : List Nat := strB "BLAKE2b"

/-- The parsed artifact header (artifact.rs `ArtifactHeaderBetter`). -/
structure ArtifactHeaderBetter where
  format : List Nat
  signer : NamedRevision
  hash_type : List Nat
  signature : List Nat
  deriving DecidableEq, Repr

/-- Embedding of artifact.rs `artifact_header_and_archive`: five strict
line reads over the stream with exactly the error cases of the source, in
source order; on success returns the header and the stream positioned at
the first payload byte. -/
def artifact_header_and_archive (s : List Nat) :
    Except Error (ArtifactHeaderBetter × List Nat) :=
  let line1 := (readLine s).1
  let r1 := (readLine s).2
  if line1 = [] then .error .cantReadFormatVersion
  else if trimB line1 = HART_FORMAT_VERSION then
    let line2 := (readLine r1).1
    let r2 := (readLine r1).2
    if line2 = [] then .error .cantReadOriginKeyName
    else
      match parseNamedRevision (trimB line2) with
      | .error e => .error e
      | .ok signer =>
        let line3 := (readLine r2).1
        let r3 := (readLine r2).2
        if line3 = [] then .error .cantReadHashType
        else if trimB line3 = SIG_HASH_TYPE then
          let line4 := (readLine r3).1
          let r4 := (readLine r3).2
          if line4 = [] then .error .cantReadSignature
          else
            match b64decode (trimB line4) with
            | none => .error .cantDecodeSignature
            | some signature =>
              let line5 := (readLine r4).1
              let r5 := (readLine r4).2
              if line5 = [] then .error .cantFindEndOfHeader
              else if trimB line5 = [] then
                .ok (⟨trimB line1, signer, trimB line3, signature⟩, r5)
              else .error (.nonEmptyDelimiter (trimB line5))
        else .error (.unsupportedSignatureType (trimB line3))
  else .error (.unsupportedFormatVersion (trimB line1))

/-- Modelled from the spec: a secret origin signing key
(keys/sig_key_pair.rs is not among the available sources); the opaque key
material is a natural number. -/
structure SecretOriginSigningKey where
  name : List Nat
  revision : List Nat
  material : Nat
  deriving DecidableEq, Repr

/-- Modelled from the spec: the corresponding public origin signing key. -/
structure PublicOriginSigningKey where
  name : List Nat
  revision : List Nat
  material : Nat
  deriving DecidableEq, Repr

/-- The identity string `<name>-<revision>` of a secret signing key. -/
def SecretOriginSigningKey.name_with_rev (k : SecretOriginSigningKey) :
    List Nat :=
  k.name ++ 45 :: k.revision

/-- Modelled from the spec: `SecretOriginSigningKey::sign` produces
signature bytes over the exact byte content of the source; the signature
is bound to the key material and the content so that verification with
the matching public key succeeds exactly on the signed stream. -/
def origSign (k : SecretOriginSigningKey) (content : List Nat) : List Nat :=
  k.material :: content

/-- Modelled from the spec: `PublicOriginSigningKey::verify` succeeds only
when the signature is valid for this key over the exact byte stream
provided, returning the name and revision of the signer. -/
def pubVerify (k : PublicOriginSigningKey) (sig content : List Nat) :
    Except Error (List Nat × List Nat) :=
  if sig = k.material :: content then .ok (k.name, k.revision)
  else .error .artifactInvalid

/-- Modelled from the spec: `KeyCache::public_signing_key` resolves a
public signing key by its named revision; the trust material of a cache is
modelled as the list of public signing keys it holds. -/
def public_signing_key (cache : List PublicOriginSigningKey)
    (nr : NamedRevision) : Option PublicOriginSigningKey :=
  cache.find? (fun k => k.name == nr.name && k.revision == nr.revision)

/-- Embedding of artifact.rs `verify`: parse the header, resolve the
signer public key from the cache, then verify the signature over the
remaining payload bytes. -/
def verify (file : List Nat) (cache : List PublicOriginSigningKey) :
    Except Error (List Nat × List Nat) :=
  match artifact_header_and_archive file with
  | .error e => .error e
  | .ok (header, reader) =>
    match public_signing_key cache header.signer with
    | none => .error .missingPublicSigningKey
    | some key => pubVerify key header.signature reader

/-- Embedding of artifact.rs `artifact_signer`: parse the artifact and
return the signer identity from the header. -/
def artifact_signer (file : List Nat) : Except Error NamedRevision :=
  match artifact_header_and_archive file with
  | .error e => .error e
  | .ok (header, _) => .ok header.signer

/-- A file system as an association of path byte strings to content byte
strings; the first binding for a path wins. -/
abbrev FS := List (List Nat × List Nat)

/-- Content at a path, if the path exists. -/
def lookupFS (fs : FS) (n : List Nat) : Option (List Nat) :=
  (fs.find? (fun p => p.1 == n)).map (·.2)

/-- Create or truncate-and-replace a file, as `File::create` does. -/
def fsInsert (fs : FS) (n c : List Nat) : FS := (n, c) :: fs

/-- The five header lines written by artifact.rs `sign`
(format version, signer identity, hash type, base64 signature, blank
delimiter), each terminated by a newline. -/
def hartHeader (name rev sig : List Nat) : List Nat :=
  HART_FORMAT_VERSION ++
    10 :: ((name ++ 45 :: rev) ++
      10 :: (SIG_HASH_TYPE ++ 10 :: (b64encode sig ++ 10 :: [10])))

/-- A full signed artifact stream: the header followed immediately by the
raw payload bytes. -/
def hartStream (name rev sig payload : List Nat) : List Nat :=
  HART_FORMAT_VERSION ++
    10 :: ((name ++ 45 :: rev) ++
      10 :: (SIG_HASH_TYPE ++ 10 :: (b64encode sig ++ 10 :: 10 :: payload)))

theorem hartHeader_append (name rev sig payload : List Nat) :
    hartHeader name rev sig ++ payload = hartStream name rev sig payload := by
  simp [hartHeader, hartStream, List.append_assoc]

/-- Embedding of artifact.rs `sign`. The source signs the content of
`src`, then opens `dst` with `File::create`, writes the five header lines
through a buffered writer, reopens `src` and copies its bytes after the
header. I/O is modelled explicitly: `srcContent` is the content obtained
from the first read of `src`, and `srcReadableForCopy` says whether the
second open of `src` (for the copy) succeeds; when it fails the header
has already been created at `dst` and remains there. -/
def sign (srcContent : List Nat) (srcReadableForCopy : Bool)
    (key : SecretOriginSigningKey) (fs : FS) (dst : List Nat) :
    Except Error Unit × FS :=
  let signature := origSign key srcContent
  let header := hartHeader key.name key.revision signature
  if srcReadableForCopy then
    (.ok (), fsInsert fs dst (header ++ srcContent))
  else
    (.error .ioError, fsInsert fs dst header)

theorem artifact_header_ok (name rev sig payload : List Nat)
    (hn : name ≠ []) (hws : ∀ c ∈ name, isWS c = false)
    (hr : validRevision rev = true) :
    artifact_header_and_archive (hartStream name rev sig payload) =
      .ok (⟨HART_FORMAT_VERSION, ⟨name, rev⟩, SIG_HASH_TYPE, sig⟩, payload) := by
  have hHartWS : ∀ c ∈ HART_FORMAT_VERSION, isWS c = false := by decide
  have hSigWS : ∀ c ∈ SIG_HASH_TYPE, isWS c = false := by decide
  have hHart10 : ∀ c ∈ HART_FORMAT_VERSION, c ≠ 10 :=
    fun c hc => not_ws_ne_10 c (hHartWS c hc)
  have hSig10 : ∀ c ∈ SIG_HASH_TYPE, c ≠ 10 :=
    fun c hc => not_ws_ne_10 c (hSigWS c hc)
  have hrall : ∀ c ∈ rev, isDigitB c = true := by
    have := (Bool.and_eq_true _ _).mp hr
    exact fun c hc => List.all_eq_true.mp this.2 c hc
  have h2ws : ∀ c ∈ name ++ 45 :: rev, isWS c = false := by
    intro c hc
    rcases List.mem_append.mp hc with hc | hc
    · exact hws c hc
    · rcases List.mem_cons.mp hc with hc | hc
      · subst hc; decide
      · exact isDigitB_not_ws c (hrall c hc)
  have h2ten : ∀ c ∈ name ++ 45 :: rev, c ≠ 10 :=
    fun c hc => not_ws_ne_10 c (h2ws c hc)
  have hB64WS : ∀ c ∈ b64encode sig, isWS c = false := by
    intro c hc
    rcases b64encode_mem sig c hc with h | h <;> subst h <;> decide
  have hB6410 : ∀ c ∈ b64encode sig, c ≠ 10 :=
    fun c hc => not_ws_ne_10 c (hB64WS c hc)
  have e1 : ∀ r, readLine (HART_FORMAT_VERSION ++ 10 :: r) =
      (HART_FORMAT_VERSION ++ [10], r) :=
    fun r => readLine_append_newline _ r hHart10
  have e2 : ∀ r, readLine ((name ++ 45 :: rev) ++ 10 :: r) =
      ((name ++ 45 :: rev) ++ [10], r) :=
    fun r => readLine_append_newline _ r h2ten
  have e3 : ∀ r, readLine (SIG_HASH_TYPE ++ 10 :: r) =
      (SIG_HASH_TYPE ++ [10], r) :=
    fun r => readLine_append_newline _ r hSig10
  have e4 : ∀ r, readLine (b64encode sig ++ 10 :: r) =
      (b64encode sig ++ [10], r) :=
    fun r => readLine_append_newline _ r hB6410
  have e5 : readLine (10 :: payload) = ([10], payload) := by simp [readLine]
  have t1 : trimB (HART_FORMAT_VERSION ++ [10]) = HART_FORMAT_VERSION :=
    trimB_append_newline _ hHartWS
  have t2 : trimB ((name ++ 45 :: rev) ++ [10]) = name ++ 45 :: rev :=
    trimB_append_newline _ h2ws
  have t3 : trimB (SIG_HASH_TYPE ++ [10]) = SIG_HASH_TYPE :=
    trimB_append_newline _ hSigWS
  have t4 : trimB (b64encode sig ++ [10]) = b64encode sig :=
    trimB_append_newline _ hB64WS
  have t5 : trimB [10] = [] := by decide
  simp only [artifact_header_and_archive, hartStream, e1, e2, e3, e4, e5,
    t1, t2, t3, t4, t5, parseNamedRevision_render name rev hn hr,
    b64decode_encode]
  simp

/-- C1: for every source file content and every secret origin signing key,
signing with `sign(src, dst, key)` succeeds, deposits the signed artifact
at `dst`, and `verify(dst, cache)` on a cache holding the corresponding
public signing key succeeds and returns the name and revision identity of
the key. -/
theorem C1_sign_verify_roundtrip
    (key : SecretOriginSigningKey) (cache : List PublicOriginSigningKey)
    (src : List Nat) (fs : FS) (dst : List Nat)
    (hn : key.name ≠ []) (hws : ∀ c ∈ key.name, isWS c = false)
    (hr : validRevision key.revision = true)
    (hcache : public_signing_key cache ⟨key.name, key.revision⟩ =
      some ⟨key.name, key.revision, key.material⟩) :
    (sign src true key fs dst).1 = .ok () ∧
      lookupFS (sign src true key fs dst).2 dst =
        some (hartStream key.name key.revision (origSign key src) src) ∧
      verify (hartStream key.name key.revision (origSign key src) src) cache =
        .ok (key.name, key.revision) := by
  refine ⟨rfl, ?_, ?_⟩
  · simp [sign, fsInsert, lookupFS, hartHeader_append]
  · simp [verify, artifact_header_ok key.name key.revision _ src hn hws hr,
      hcache, pubVerify, origSign]

/-- Witness for C1 at a concrete key, source and cache. -/
theorem C1_sign_verify_roundtrip_witness :
    (sign [1, 2, 3] true ⟨strB "origin", strB "20160424223347", 7⟩ []
        (strB "signed.dat")).1 = .ok () ∧
      lookupFS (sign [1, 2, 3] true ⟨strB "origin", strB "20160424223347", 7⟩ []
          (strB "signed.dat")).2 (strB "signed.dat") =
        some (hartStream (strB "origin") (strB "20160424223347")
          (origSign ⟨strB "origin", strB "20160424223347", 7⟩ [1, 2, 3])
          [1, 2, 3]) ∧
      verify (hartStream (strB "origin") (strB "20160424223347")
          (origSign ⟨strB "origin", strB "20160424223347", 7⟩ [1, 2, 3])
          [1, 2, 3])
        [⟨strB "origin", strB "20160424223347", 7⟩] =
        .ok (strB "origin", strB "20160424223347") :=
  C1_sign_verify_roundtrip ⟨strB "origin", strB "20160424223347", 7⟩
    [⟨strB "origin", strB "20160424223347", 7⟩] [1, 2, 3] [] (strB "signed.dat")
    (by decide) (by decide) (by decide) (by decide)

theorem nameRev_not_ws (name rev : List Nat)
    (hws : ∀ c ∈ name, isWS c = false) (hr : validRevision rev = true) :
    ∀ c ∈ name ++ 45 :: rev, isWS c = false := by
  have hrall : ∀ c ∈ rev, isDigitB c = true := by
    have := (Bool.and_eq_true _ _).mp hr
    exact fun c hc => List.all_eq_true.mp this.2 c hc
  intro c hc
  rcases List.mem_append.mp hc with hc | hc
  · exact hws c hc
  · rcases List.mem_cons.mp hc with hc | hc
    · subst hc; decide
    · exact isDigitB_not_ws c (hrall c hc)

theorem b64encode_not_ws (sig : List Nat) :
    ∀ c ∈ b64encode sig, isWS c = false := by
  intro c hc
  rcases b64encode_mem sig c hc with h | h <;> subst h <;> decide

theorem parseNamedRevision_error (l : List Nat)
    (h : isOkE (parseNamedRevision l) = false) :
    parseNamedRevision l = .error (.cannotParseNamedRevision l) := by
  unfold parseNamedRevision at h ⊢
  cases hs : splitLastDash l with
  | none => simp
  | some p =>
    obtain ⟨name, rev⟩ := p
    by_cases hc : name ≠ [] ∧ validRevision rev = true
    · rw [hs] at h
      simp [hc, isOkE] at h
    · simp [hc]

/-- C2: the five header lines are read strictly in order; end-of-stream or
content mismatch at any of the five lines fails immediately with the
specific error for that line, independent of any later content, and
cryptographic verification is never reached. Covered cases, in line
order: end of stream and format mismatch at the format line; end of
stream (a file truncated to only its format line, with or without its
newline — a format error, not an I/O error) and identity parse failure at
the signer line; end of stream and literal mismatch at the hash-type
line; end of stream and base64 decode failure at the signature line; end
of stream and non-empty content at the delimiter line; and propagation of
every header error through verify before any cryptography. -/
theorem C2_header_strict_order :
    (artifact_header_and_archive [] = .error .cantReadFormatVersion) ∧
    (∀ l rest, (∀ c ∈ l, isWS c = false) → l ≠ HART_FORMAT_VERSION →
      artifact_header_and_archive (l ++ 10 :: rest) =
        .error (.unsupportedFormatVersion l)) ∧
    (artifact_header_and_archive (HART_FORMAT_VERSION ++ [10]) =
        .error .cantReadOriginKeyName ∧
      artifact_header_and_archive HART_FORMAT_VERSION =
        .error .cantReadOriginKeyName ∧
      artifact_header_and_archive (HART_FORMAT_VERSION ++ [10]) ≠
        .error .ioError) ∧
    (∀ l rest, (∀ c ∈ l, isWS c = false) →
      isOkE (parseNamedRevision l) = false →
      artifact_header_and_archive
          (HART_FORMAT_VERSION ++ 10 :: (l ++ 10 :: rest)) =
        .error (.cannotParseNamedRevision l)) ∧
    (∀ name rev, name ≠ [] → (∀ c ∈ name, isWS c = false) →
      validRevision rev = true →
      artifact_header_and_archive
          (HART_FORMAT_VERSION ++ 10 :: ((name ++ 45 :: rev) ++ [10])) =
        .error .cantReadHashType) ∧
    (∀ name rev ht rest, name ≠ [] → (∀ c ∈ name, isWS c = false) →
      validRevision rev = true → (∀ c ∈ ht, isWS c = false) →
      ht ≠ SIG_HASH_TYPE →
      artifact_header_and_archive
          (HART_FORMAT_VERSION ++
            10 :: ((name ++ 45 :: rev) ++ 10 :: (ht ++ 10 :: rest))) =
        .error (.unsupportedSignatureType ht)) ∧
    (∀ name rev, name ≠ [] → (∀ c ∈ name, isWS c = false) →
      validRevision rev = true →
      artifact_header_and_archive
          (HART_FORMAT_VERSION ++
            10 :: ((name ++ 45 :: rev) ++ 10 :: (SIG_HASH_TYPE ++ [10]))) =
        .error .cantReadSignature) ∧
    (∀ name rev sl rest, name ≠ [] → (∀ c ∈ name, isWS c = false) →
      validRevision rev = true → (∀ c ∈ sl, isWS c = false) →
      b64decode sl = none →
      artifact_header_and_archive
          (HART_FORMAT_VERSION ++
            10 :: ((name ++ 45 :: rev) ++
              10 :: (SIG_HASH_TYPE ++ 10 :: (sl ++ 10 :: rest)))) =
        .error .cantDecodeSignature) ∧
    (∀ name rev sig, name ≠ [] → (∀ c ∈ name, isWS c = false) →
      validRevision rev = true →
      artifact_header_and_archive
          (HART_FORMAT_VERSION ++
            10 :: ((name ++ 45 :: rev) ++
              10 :: (SIG_HASH_TYPE ++ 10 :: (b64encode sig ++ [10])))) =
        .error .cantFindEndOfHeader) ∧
    (∀ name rev sig d rest, name ≠ [] → (∀ c ∈ name, isWS c = false) →
      validRevision rev = true → (∀ c ∈ d, isWS c = false) → d ≠ [] →
      artifact_header_and_archive
          (HART_FORMAT_VERSION ++
            10 :: ((name ++ 45 :: rev) ++
              10 :: (SIG_HASH_TYPE ++
                10 :: (b64encode sig ++ 10 :: (d ++ 10 :: rest))))) =
        .error (.nonEmptyDelimiter d)) ∧
    (∀ s cache e, artifact_header_and_archive s = .error e →
      verify s cache = .error e) := by
  have hHartWS : ∀ c ∈ HART_FORMAT_VERSION, isWS c = false := by decide
  have hHart10 : ∀ c ∈ HART_FORMAT_VERSION, c ≠ 10 :=
    fun c hc => not_ws_ne_10 c (hHartWS c hc)
  have hSigWS : ∀ c ∈ SIG_HASH_TYPE, isWS c = false := by decide
  have hSig10 : ∀ c ∈ SIG_HASH_TYPE, c ≠ 10 :=
    fun c hc => not_ws_ne_10 c (hSigWS c hc)
  have e1 : ∀ r, readLine (HART_FORMAT_VERSION ++ 10 :: r) =
      (HART_FORMAT_VERSION ++ [10], r) :=
    fun r => readLine_append_newline _ r hHart10
  have t1 : trimB (HART_FORMAT_VERSION ++ [10]) = HART_FORMAT_VERSION :=
    trimB_append_newline _ hHartWS
  have t3 : trimB (SIG_HASH_TYPE ++ [10]) = SIG_HASH_TYPE :=
    trimB_append_newline _ hSigWS
  refine ⟨by decide, ?_, ⟨by decide, by decide, by decide⟩,
    ?_, ?_, ?_, ?_, ?_, ?_, ?_, ?_⟩
  · intro l rest hws hne
    have h10 : ∀ c ∈ l, c ≠ 10 := fun c hc => not_ws_ne_10 c (hws c hc)
    simp only [artifact_header_and_archive,
      readLine_append_newline l rest h10, trimB_append_newline l hws]
    simp [hne]
  · intro l rest hws hbad
    have h10 : ∀ c ∈ l, c ≠ 10 := fun c hc => not_ws_ne_10 c (hws c hc)
    have e2 : readLine (l ++ 10 :: rest) = (l ++ [10], rest) :=
      readLine_append_newline _ _ h10
    simp only [artifact_header_and_archive, e1, t1, e2,
      trimB_append_newline l hws, parseNamedRevision_error l hbad]
    simp
  · intro name rev hn hws hr
    have h2ws := nameRev_not_ws name rev hws hr
    have h2ten : ∀ c ∈ name ++ 45 :: rev, c ≠ 10 :=
      fun c hc => not_ws_ne_10 c (h2ws c hc)
    have e2 : readLine ((name ++ 45 :: rev) ++ 10 :: ([] : List Nat)) =
        ((name ++ 45 :: rev) ++ [10], []) :=
      readLine_append_newline _ [] h2ten
    simp only [artifact_header_and_archive, e1, t1, e2,
      trimB_append_newline _ h2ws, parseNamedRevision_render name rev hn hr]
    simp [readLine]
  · intro name rev ht rest hn hws hr hht hne
    have h2ws := nameRev_not_ws name rev hws hr
    have h2ten : ∀ c ∈ name ++ 45 :: rev, c ≠ 10 :=
      fun c hc => not_ws_ne_10 c (h2ws c hc)
    have hht10 : ∀ c ∈ ht, c ≠ 10 := fun c hc => not_ws_ne_10 c (hht c hc)
    have e2 : readLine ((name ++ 45 :: rev) ++ 10 :: (ht ++ 10 :: rest)) =
        ((name ++ 45 :: rev) ++ [10], ht ++ 10 :: rest) :=
      readLine_append_newline _ _ h2ten
    have e3 : readLine (ht ++ 10 :: rest) = (ht ++ [10], rest) :=
      readLine_append_newline _ _ hht10
    simp only [artifact_header_and_archive, e1, t1, e2, e3,
      trimB_append_newline _ h2ws, trimB_append_newline _ hht,
      parseNamedRevision_render name rev hn hr]
    simp [hne]
  · intro name rev hn hws hr
    have h2ws := nameRev_not_ws name rev hws hr
    have h2ten : ∀ c ∈ name ++ 45 :: rev, c ≠ 10 :=
      fun c hc => not_ws_ne_10 c (h2ws c hc)
    have e2 : readLine
        ((name ++ 45 :: rev) ++ 10 :: (SIG_HASH_TYPE ++ [10])) =
        ((name ++ 45 :: rev) ++ [10], SIG_HASH_TYPE ++ [10]) :=
      readLine_append_newline _ _ h2ten
    have e3 : readLine (SIG_HASH_TYPE ++ 10 :: ([] : List Nat)) =
        (SIG_HASH_TYPE ++ [10], []) :=
      readLine_append_newline _ [] hSig10
    simp only [artifact_header_and_archive, e1, t1, e2, e3, t3,
      trimB_append_newline _ h2ws, parseNamedRevision_render name rev hn hr]
    simp [readLine]
  · intro name rev sl rest hn hws hr hslws hdec
    have h2ws := nameRev_not_ws name rev hws hr
    have h2ten : ∀ c ∈ name ++ 45 :: rev, c ≠ 10 :=
      fun c hc => not_ws_ne_10 c (h2ws c hc)
    have hsl10 : ∀ c ∈ sl, c ≠ 10 := fun c hc => not_ws_ne_10 c (hslws c hc)
    have e2 : readLine ((name ++ 45 :: rev) ++
        10 :: (SIG_HASH_TYPE ++ 10 :: (sl ++ 10 :: rest))) =
        ((name ++ 45 :: rev) ++ [10],
          SIG_HASH_TYPE ++ 10 :: (sl ++ 10 :: rest)) :=
      readLine_append_newline _ _ h2ten
    have e3 : readLine (SIG_HASH_TYPE ++ 10 :: (sl ++ 10 :: rest)) =
        (SIG_HASH_TYPE ++ [10], sl ++ 10 :: rest) :=
      readLine_append_newline _ _ hSig10
    have e4 : readLine (sl ++ 10 :: rest) = (sl ++ [10], rest) :=
      readLine_append_newline _ _ hsl10
    simp only [artifact_header_and_archive, e1, t1, e2, e3, t3, e4,
      trimB_append_newline _ h2ws, trimB_append_newline _ hslws,
      parseNamedRevision_render name rev hn hr, hdec]
    simp
  · intro name rev sig hn hws hr
    have h2ws := nameRev_not_ws name rev hws hr
    have h2ten : ∀ c ∈ name ++ 45 :: rev, c ≠ 10 :=
      fun c hc => not_ws_ne_10 c (h2ws c hc)
    have hb64 := b64encode_not_ws sig
    have hb6410 : ∀ c ∈ b64encode sig, c ≠ 10 :=
      fun c hc => not_ws_ne_10 c (hb64 c hc)
    have e2 : readLine ((name ++ 45 :: rev) ++
        10 :: (SIG_HASH_TYPE ++ 10 :: (b64encode sig ++ [10]))) =
        ((name ++ 45 :: rev) ++ [10],
          SIG_HASH_TYPE ++ 10 :: (b64encode sig ++ [10])) :=
      readLine_append_newline _ _ h2ten
    have e3 : readLine (SIG_HASH_TYPE ++ 10 :: (b64encode sig ++ [10])) =
        (SIG_HASH_TYPE ++ [10], b64encode sig ++ [10]) :=
      readLine_append_newline _ _ hSig10
    have e4 : readLine (b64encode sig ++ 10 :: ([] : List Nat)) =
        (b64encode sig ++ [10], []) :=
      readLine_append_newline _ [] hb6410
    simp only [artifact_header_and_archive, e1, t1, e2, e3, t3, e4,
      trimB_append_newline _ h2ws, trimB_append_newline _ hb64,
      parseNamedRevision_render name rev hn hr, b64decode_encode]
    simp [readLine]
  · intro name rev sig d rest hn hws hr hdws hdne
    have h2ws := nameRev_not_ws name rev hws hr
    have h2ten : ∀ c ∈ name ++ 45 :: rev, c ≠ 10 :=
      fun c hc => not_ws_ne_10 c (h2ws c hc)
    have hb64 := b64encode_not_ws sig
    have hb6410 : ∀ c ∈ b64encode sig, c ≠ 10 :=
      fun c hc => not_ws_ne_10 c (hb64 c hc)
    have hd10 : ∀ c ∈ d, c ≠ 10 := fun c hc => not_ws_ne_10 c (hdws c hc)
    have e2 : readLine ((name ++ 45 :: rev) ++
        10 :: (SIG_HASH_TYPE ++
          10 :: (b64encode sig ++ 10 :: (d ++ 10 :: rest)))) =
        ((name ++ 45 :: rev) ++ [10],
          SIG_HASH_TYPE ++
            10 :: (b64encode sig ++ 10 :: (d ++ 10 :: rest))) :=
      readLine_append_newline _ _ h2ten
    have e3 : readLine (SIG_HASH_TYPE ++
        10 :: (b64encode sig ++ 10 :: (d ++ 10 :: rest))) =
        (SIG_HASH_TYPE ++ [10], b64encode sig ++ 10 :: (d ++ 10 :: rest)) :=
      readLine_append_newline _ _ hSig10
    have e4 : readLine (b64encode sig ++ 10 :: (d ++ 10 :: rest)) =
        (b64encode sig ++ [10], d ++ 10 :: rest) :=
      readLine_append_newline _ _ hb6410
    have e5 : readLine (d ++ 10 :: rest) = (d ++ [10], rest) :=
      readLine_append_newline _ _ hd10
    simp only [artifact_header_and_archive, e1, t1, e2, e3, t3, e4, e5,
      trimB_append_newline _ h2ws, trimB_append_newline _ hb64,
      trimB_append_newline _ hdws,
      parseNamedRevision_render name rev hn hr, b64decode_encode]
    simp [hdne]
  · intro s cache e h
    simp [verify, h]

/-- Witness for C2 at concrete streams mirroring the source test inputs,
one per failure case: an unsupported format version, an unparseable
signer identity, a header truncated after the signer line, an unsupported
hash type, a header truncated after the hash-type line, an undecodable
signature line, a header truncated after the signature line, a non-empty
delimiter line, and an empty file given to verify. -/
theorem C2_header_strict_order_witness :
    artifact_header_and_archive (strB "SOME-VERSION" ++ 10 :: strB "uhoh") =
      .error (.unsupportedFormatVersion (strB "SOME-VERSION")) ∧
    artifact_header_and_archive
        (HART_FORMAT_VERSION ++ 10 :: (strB "nope-nope" ++ 10 :: strB "uhoh")) =
      .error (.cannotParseNamedRevision (strB "nope-nope")) ∧
    artifact_header_and_archive
        (HART_FORMAT_VERSION ++
          10 :: ((strB "unicorn" ++ 45 :: strB "20160424223347") ++ [10])) =
      .error .cantReadHashType ∧
    artifact_header_and_archive
        (HART_FORMAT_VERSION ++
          10 :: ((strB "unicorn" ++ 45 :: strB "20160424223347") ++
            10 :: (strB "BESTEST" ++ 10 :: strB "uhoh"))) =
      .error (.unsupportedSignatureType (strB "BESTEST")) ∧
    artifact_header_and_archive
        (HART_FORMAT_VERSION ++
          10 :: ((strB "unicorn" ++ 45 :: strB "20160424223347") ++
            10 :: (SIG_HASH_TYPE ++ [10]))) =
      .error .cantReadSignature ∧
    artifact_header_and_archive
        (HART_FORMAT_VERSION ++
          10 :: ((strB "unicorn" ++ 45 :: strB "20160424223347") ++
            10 :: (SIG_HASH_TYPE ++ 10 :: ([50] ++ 10 :: strB "uhoh")))) =
      .error .cantDecodeSignature ∧
    artifact_header_and_archive
        (HART_FORMAT_VERSION ++
          10 :: ((strB "unicorn" ++ 45 :: strB "20160424223347") ++
            10 :: (SIG_HASH_TYPE ++ 10 :: (b64encode [1] ++ [10])))) =
      .error .cantFindEndOfHeader ∧
    artifact_header_and_archive
        (HART_FORMAT_VERSION ++
          10 :: ((strB "unicorn" ++ 45 :: strB "20160424223347") ++
            10 :: (SIG_HASH_TYPE ++
              10 :: (b64encode [1] ++ 10 :: (strB "x" ++ 10 :: []))))) =
      .error (.nonEmptyDelimiter (strB "x")) ∧
    verify [] [] = .error .cantReadFormatVersion :=
  ⟨C2_header_strict_order.2.1 (strB "SOME-VERSION") (strB "uhoh")
      (by decide) (by decide),
    C2_header_strict_order.2.2.2.1 (strB "nope-nope") (strB "uhoh")
      (by decide) (by decide),
    C2_header_strict_order.2.2.2.2.1 (strB "unicorn") (strB "20160424223347")
      (by decide) (by decide) (by decide),
    C2_header_strict_order.2.2.2.2.2.1 (strB "unicorn")
      (strB "20160424223347") (strB "BESTEST") (strB "uhoh") (by decide)
      (by decide) (by decide) (by decide) (by decide),
    C2_header_strict_order.2.2.2.2.2.2.1 (strB "unicorn")
      (strB "20160424223347") (by decide) (by decide) (by decide),
    C2_header_strict_order.2.2.2.2.2.2.2.1 (strB "unicorn")
      (strB "20160424223347") [50] (strB "uhoh") (by decide) (by decide)
      (by decide) (by decide) (by decide),
    C2_header_strict_order.2.2.2.2.2.2.2.2.1 (strB "unicorn")
      (strB "20160424223347") [1] (by decide) (by decide) (by decide),
    C2_header_strict_order.2.2.2.2.2.2.2.2.2.1 (strB "unicorn")
      (strB "20160424223347") [1] (strB "x") [] (by decide) (by decide)
      (by decide) (by decide) (by decide),
    C2_header_strict_order.2.2.2.2.2.2.2.2.2.2 [] [] Error.cantReadFormatVersion
      C2_header_strict_order.1⟩

/-- C3 counterexample: a file whose first two lines are a well-formed
format version and a well-formed signer identity, but which ends there,
makes `artifact_signer` fail (with the hash-type read error), refuting the
claim that `artifact_signer` succeeds on any file whose first two lines
are well-formed regardless of the later header lines. -/
theorem C3_counterexample :
    trimB (strB "HART-1") = HART_FORMAT_VERSION ∧
      parseNamedRevision (strB "happyhumans-20160424223347") =
        .ok ⟨strB "happyhumans", strB "20160424223347"⟩ ∧
      artifact_signer
          (HART_FORMAT_VERSION ++
            10 :: (strB "happyhumans-20160424223347" ++ [10])) =
        .error .cantReadHashType := by
  decide

/-- C3 amended: `artifact_signer` parses the complete five-line header, so
it succeeds exactly on files whose whole header is well-formed, returning
the signer identity; it takes no key cache and thus never requires the
signer public key to be present in any trust material. A file with only
the first two header lines well-formed fails. -/
theorem C3_artifact_signer_amended (name rev sig payload : List Nat)
    (hn : name ≠ []) (hws : ∀ c ∈ name, isWS c = false)
    (hr : validRevision rev = true) :
    artifact_signer (hartStream name rev sig payload) = .ok ⟨name, rev⟩ := by
  simp [artifact_signer, artifact_header_ok name rev sig payload hn hws hr]

/-- Witness for the amended C3 at a concrete artifact. -/
theorem C3_artifact_signer_amended_witness :
    artifact_signer
        (hartStream (strB "happyhumans") (strB "20160424223347") [5] [9, 9]) =
      .ok ⟨strB "happyhumans", strB "20160424223347"⟩ :=
  C3_artifact_signer_amended (strB "happyhumans") (strB "20160424223347")
    [5] [9, 9] (by decide) (by decide) (by decide)

/-- C8 counterexample: a concrete failing run of `sign` (the source
becomes unreadable when reopened for the payload copy, after the header
has been created at the destination) returns an error yet leaves the
header bytes durably at the destination path, refuting the claim that no
failing run leaves partial output at the destination. -/
theorem C8_counterexample :
    (sign [1, 2, 3] false ⟨strB "origin", strB "20160424223347", 7⟩ []
        (strB "signed.dat")).1 = .error .ioError ∧
      lookupFS (sign [1, 2, 3] false ⟨strB "origin", strB "20160424223347", 7⟩
          [] (strB "signed.dat")).2 (strB "signed.dat") =
        some (hartHeader (strB "origin") (strB "20160424223347")
          (origSign ⟨strB "origin", strB "20160424223347", 7⟩ [1, 2, 3])) := by
  decide

/-- C8 amended: `sign` writes directly at the destination with no
temporary file. A successful run leaves the complete artifact at the
destination; a run that fails while copying the source (after the header
write) fails with an I/O error and leaves a partial, header-only file at
the destination. -/
theorem C8_sign_direct_write (src : List Nat) (key : SecretOriginSigningKey)
    (fs : FS) (dst : List Nat) :
    sign src true key fs dst =
        (.ok (), fsInsert fs dst
          (hartHeader key.name key.revision (origSign key src) ++ src)) ∧
      sign src false key fs dst =
        (.error .ioError, fsInsert fs dst
          (hartHeader key.name key.revision (origSign key src))) ∧
      lookupFS (sign src false key fs dst).2 dst =
        some (hartHeader key.name key.revision (origSign key src)) := by
  refine ⟨rfl, rfl, ?_⟩
  simp [sign, fsInsert, lookupFS]

/-- Required nonce length of the secretbox cipher (24 bytes). -/
def NONCE_LEN : Nat := 24

/-- Secretbox key length (32 bytes). -/
def SYM_KEY_LEN : Nat := 32

/-- Embedding of `RingKey` as its inner `KeyPair<(), SymSecretKey>`: a
name, a revision, an optional unit public slot and an optional symmetric
secret key (a byte list). -/
structure RingKey where
  name : List Nat
  rev : List Nat
  public : Option Unit
  secret : Option (List Nat)
  deriving DecidableEq, Repr

/-- The identity string `<name>-<revision>` of a ring key. -/
def RingKey.name_with_rev (k : RingKey) : List Nat := k.name ++ 45 :: k.rev

/-- Modelled from the spec: `KeyPair::secret` (keys/mod.rs is not among
the available sources) returns the secret component or fails with the
missing-component error naming the identity. -/
def RingKey.secretOf (k : RingKey) : Except Error (List Nat) :=
  match k.secret with
  | some s => .ok s
  | none => .error (.missingSecretKey k.name_with_rev)

/-- Modelled from the spec: `KeyPair::public`, the public-slot accessor,
failing with the missing-component error when the slot is absent. -/
def RingKey.publicOf (k : RingKey) : Except Error Unit :=
  match k.public with
  | some _ => .ok ()
  | none => .error (.missingPublicKey k.name_with_rev)

/-- Embedding of `RingKey::new`: a fresh revision (the current clock
reading, passed as input) and freshly generated secret material (the
random generator output, passed as input); the public slot is populated
with unit and the secret slot with the generated key. -/
def RingKey.new (name rev genKey : List Nat) : RingKey :=
  ⟨name, rev, some (), some genKey⟩

/-- Modelled from the spec: libsodium `secretbox::seal`, as ideal
authenticated encryption: the ciphertext determines nonce, key and
message exactly. -/
def sbSeal (msg nonce key : List Nat) : List Nat := nonce ++ key ++ msg

/-- Modelled from the spec: libsodium `secretbox::open`; authenticated
decryption succeeds exactly on a ciphertext sealed with this nonce and
key, and fails (returning nothing) otherwise. -/
def sbOpen (ct nonce key : List Nat) : Option (List Nat) :=
  if ct.take NONCE_LEN = nonce ∧ (ct.drop NONCE_LEN).take SYM_KEY_LEN = key
  then some ((ct.drop NONCE_LEN).drop SYM_KEY_LEN)
  else none

/-- Modelled from the spec: `secretbox::Nonce::from_slice`, accepting
exactly byte slices of the required nonce length. -/
def nonceFromSlice (l : List Nat) : Option (List Nat) :=
  if l.length = NONCE_LEN then some l else none

/-- Embedding of `RingKey::encrypt`: require the secret slot, generate a
fresh nonce (the random generator output, passed as input — libsodium
nonces always have the required length), and return the nonce alongside
the ciphertext. -/
def RingKey.encrypt (k : RingKey) (nonce data : List Nat) :
    Except Error (List Nat × List Nat) :=
  match k.secretOf with
  | .error e => .error e
  | .ok key => .ok (nonce, sbSeal data nonce key)

/-- Embedding of `RingKey::decrypt`: require the secret slot, check the
nonce size, then attempt authenticated decryption, failing with the
verification error when it does not verify. -/
def RingKey.decrypt (k : RingKey) (nonce ciphertext : List Nat) :
    Except Error (List Nat) :=
  match k.secretOf with
  | .error e => .error e
  | .ok key =>
    match nonceFromSlice nonce with
    | none => .error .invalidNonceSize
    | some n =>
      match sbOpen ciphertext n key with
      | some msg => .ok msg
      | none => .error .decryptionFailed

theorem take_append_length (a b : List Nat) : (a ++ b).take a.length = a := by
  induction a with
  | nil => simp
  | cons x t ih => simp [ih]

theorem drop_append_length (a b : List Nat) : (a ++ b).drop a.length = b := by
  induction a with
  | nil => simp
  | cons x t ih => simp [ih]

theorem sbOpen_seal (msg nonce key : List Nat)
    (hn : nonce.length = NONCE_LEN) (hk : key.length = SYM_KEY_LEN) :
    sbOpen (sbSeal msg nonce key) nonce key = some msg := by
  unfold sbOpen sbSeal
  rw [List.append_assoc, ← hn, take_append_length, drop_append_length,
    ← hk, take_append_length, drop_append_length]
  simp

/-- C6: for every plaintext and every ring key whose secret slot is
present (with libsodium-sized key material and nonce), encrypting and
then decrypting with the same key returns exactly the plaintext. -/
theorem C6_ring_key_roundtrip (name rev s nonce p : List Nat)
    (hk : s.length = SYM_KEY_LEN) (hn : nonce.length = NONCE_LEN) :
    RingKey.encrypt ⟨name, rev, some (), some s⟩ nonce p =
        .ok (nonce, sbSeal p nonce s) ∧
      RingKey.decrypt ⟨name, rev, some (), some s⟩ nonce (sbSeal p nonce s) =
        .ok p := by
  constructor
  · rfl
  · have h1 : nonceFromSlice nonce = some nonce := by
      simp [nonceFromSlice, hn]
    simp only [RingKey.decrypt, RingKey.secretOf, h1,
      sbOpen_seal p nonce s hn hk]

/-- Witness for C6 at concrete key material, nonce and plaintext. -/
theorem C6_ring_key_roundtrip_witness :
    RingKey.encrypt
          ⟨strB "beyonce", strB "20160504220722", some (),
            some (List.replicate 32 5)⟩
          (List.replicate 24 2) [7, 8, 9] =
        .ok (List.replicate 24 2,
          sbSeal [7, 8, 9] (List.replicate 24 2) (List.replicate 32 5)) ∧
      RingKey.decrypt
          ⟨strB "beyonce", strB "20160504220722", some (),
            some (List.replicate 32 5)⟩
          (List.replicate 24 2)
          (sbSeal [7, 8, 9] (List.replicate 24 2) (List.replicate 32 5)) =
        .ok [7, 8, 9] :=
  C6_ring_key_roundtrip (strB "beyonce") (strB "20160504220722")
    (List.replicate 32 5) (List.replicate 24 2) [7, 8, 9]
    (by decide) (by decide)

/-- C7: `RingKey::decrypt` fails with the missing-secret error when the
secret slot is absent; fails with the invalid-nonce-size error when the
nonce length is wrong; fails with the verification error whenever
authenticated decryption fails, in particular under a wrong key; and on
each failure path returns an error rather than any plaintext bytes. -/
theorem C7_ring_key_decrypt_errors :
    (∀ name rev pub nonce ct,
      RingKey.decrypt ⟨name, rev, pub, none⟩ nonce ct =
        .error (.missingSecretKey (name ++ 45 :: rev))) ∧
    (∀ name rev pub s nonce ct, nonce.length ≠ NONCE_LEN →
      RingKey.decrypt ⟨name, rev, pub, some s⟩ nonce ct =
        .error .invalidNonceSize) ∧
    (∀ name rev pub s nonce ct, nonce.length = NONCE_LEN →
      sbOpen ct nonce s = none →
      RingKey.decrypt ⟨name, rev, pub, some s⟩ nonce ct =
        .error .decryptionFailed) ∧
    (∀ name rev pub s s2 nonce p, s.length = SYM_KEY_LEN →
      s2.length = SYM_KEY_LEN → nonce.length = NONCE_LEN → s ≠ s2 →
      RingKey.decrypt ⟨name, rev, pub, some s2⟩ nonce (sbSeal p nonce s) =
        .error .decryptionFailed) := by
  refine ⟨?_, ?_, ?_, ?_⟩
  · intro name rev pub nonce ct
    rfl
  · intro name rev pub s nonce ct hn
    unfold RingKey.decrypt RingKey.secretOf nonceFromSlice
    simp [hn]
  · intro name rev pub s nonce ct hn hopen
    have h1 : nonceFromSlice nonce = some nonce := by
      simp [nonceFromSlice, hn]
    simp only [RingKey.decrypt, RingKey.secretOf, h1, hopen]
  · intro name rev pub s s2 nonce p hs hs2 hn hne
    have hopen : sbOpen (sbSeal p nonce s) nonce s2 = none := by
      unfold sbOpen sbSeal
      rw [List.append_assoc, ← hn, take_append_length, drop_append_length,
        ← hs, take_append_length]
      simp [hne]
    have h1 : nonceFromSlice nonce = some nonce := by
      simp [nonceFromSlice, hn]
    simp only [RingKey.decrypt, RingKey.secretOf, h1, hopen]

/-- Witness for C7 at concrete keys, nonces and ciphertexts exercising
each failure path. -/
theorem C7_ring_key_decrypt_errors_witness :
    RingKey.decrypt
        ⟨strB "grohl", strB "20160405144900", some (), none⟩ [1] [2] =
      .error (.missingSecretKey (strB "grohl" ++ 45 :: strB "20160405144900")) ∧
    RingKey.decrypt
        ⟨strB "beyonce", strB "20160504220722", some (),
          some (List.replicate 32 5)⟩ [1, 2, 3] [2] =
      .error .invalidNonceSize ∧
    RingKey.decrypt
        ⟨strB "beyonce", strB "20160504220722", some (),
          some (List.replicate 32 5)⟩ (List.replicate 24 2) [9] =
      .error .decryptionFailed ∧
    RingKey.decrypt
        ⟨strB "beyonce", strB "20160504220722", some (),
          some (List.replicate 32 6)⟩ (List.replicate 24 2)
        (sbSeal [7, 8, 9] (List.replicate 24 2) (List.replicate 32 5)) =
      .error .decryptionFailed :=
  ⟨C7_ring_key_decrypt_errors.1 (strB "grohl") (strB "20160405144900")
      (some ()) [1] [2],
    C7_ring_key_decrypt_errors.2.1 (strB "beyonce") (strB "20160504220722")
      (some ()) (List.replicate 32 5) [1, 2, 3] [2] (by decide),
    C7_ring_key_decrypt_errors.2.2.1 (strB "beyonce") (strB "20160504220722")
      (some ()) (List.replicate 32 5) (List.replicate 24 2) [9] (by decide)
      (by decide),
    C7_ring_key_decrypt_errors.2.2.2 (strB "beyonce") (strB "20160504220722")
      (some ()) (List.replicate 32 5) (List.replicate 32 6)
      (List.replicate 24 2) [7, 8, 9] (by decide) (by decide) (by decide)
      (by decide)⟩

/-- The fixed ring key file banner literal `SYM-SEC-1`. -/
def SECRET_SYM_KEY_VERSION : List Nat := strB "SYM-SEC-1"

/-- Embedding of cache.rs `maybe_write_key`. The key file path is the
canonical filename of the key, the content its rendered key string. The
content digest is taken as a parameter because the digest function is an
external collaborator of this core; per the spec it is the same algorithm
for a byte string and for a file's contents. When a file already exists at
the path the digests of the existing and incoming content are compared:
equal digests are a successful no-op, differing digests are a conflict
error; only when no file exists is the content written (atomically in the
source). -/
def maybe_write_key (hashF : List Nat → List Nat) (fs : FS)
    (keyfile content : List Nat) : Except Error FS :=
  match lookupFS fs keyfile with
  | some existing =>
    if hashF existing = hashF content then .ok fs
    else .error (.existingKeyHashDiffers keyfile)
  | none => .ok (fsInsert fs keyfile content)

/-- C4: a Key Cache write to an already-occupied filename is a successful
no-op when the incoming content digest equals the existing file digest
(leaving the single existing file in place), and fails with the conflict
error when the digests differ; no write ever replaces existing content
with different content. -/
theorem C4_conflict_safe_write (hashF : List Nat → List Nat) (fs : FS)
    (keyfile existing content : List Nat)
    (h : lookupFS fs keyfile = some existing) :
    (hashF existing = hashF content →
      maybe_write_key hashF fs keyfile content = .ok fs ∧
        lookupFS fs keyfile = some existing) ∧
    (hashF existing ≠ hashF content →
      maybe_write_key hashF fs keyfile content =
        .error (.existingKeyHashDiffers keyfile)) := by
  constructor
  · intro he
    exact ⟨by simp [maybe_write_key, h, he], h⟩
  · intro he
    simp [maybe_write_key, h, he]

/-- Witness for C4: an identical re-write is accepted without change and a
differing write is rejected, on a concrete one-file cache with a concrete
digest function. -/
theorem C4_conflict_safe_write_witness :
    maybe_write_key (fun l => l) [(strB "k.sym.key", [1])] (strB "k.sym.key")
        [1] = .ok [(strB "k.sym.key", [1])] ∧
      maybe_write_key (fun l => l) [(strB "k.sym.key", [1])] (strB "k.sym.key")
        [2] = .error (.existingKeyHashDiffers (strB "k.sym.key")) :=
  ⟨((C4_conflict_safe_write (fun l => l) [(strB "k.sym.key", [1])]
        (strB "k.sym.key") [1] [1] (by decide)).1 (by decide)).1,
    (C4_conflict_safe_write (fun l => l) [(strB "k.sym.key", [1])]
        (strB "k.sym.key") [1] [2] (by decide)).2 (by decide)⟩

/-- A resident ring key file of the cache directory: the name and
revision from its `<name>-<revision>.sym.key` filename, and its
byte content. -/
structure SymKeyFile where
  name : List Nat
  rev : List Nat
  content : List Nat
  deriving DecidableEq, Repr

/-- Lexicographic comparison of byte strings; on the fixed-width digit
strings used as revisions it coincides with chronological order. -/
def lexLt : List Nat → List Nat → Bool
  | [], [] => false
  | [], _ :: _ => true
  | _ :: _, [] => false
  | a :: as, b :: bs =>
    if a < b then true
    else if b < a then false
    else lexLt as bs

theorem lexLt_asymm (a : List Nat) :
    ∀ b, lexLt a b = true → lexLt b a = false := by
  induction a with
  | nil =>
    intro b h
    cases b with
    | nil => simp [lexLt] at h
    | cons y ys => simp [lexLt]
  | cons x xs ih =>
    intro b h
    cases b with
    | nil => simp [lexLt] at h
    | cons y ys =>
      simp only [lexLt] at h ⊢
      by_cases h1 : x < y
      · have h2 : ¬ y < x := by omega
        simp [h1, h2]
      · by_cases h2 : y < x
        · simp [h1, h2] at h
        · simp only [h1, h2, if_false] at h ⊢
          exact ih ys h

/-- Insert an entry into a list sorted by revision descending. -/
def insertDesc (e : SymKeyFile) : List SymKeyFile → List SymKeyFile
  | [] => [e]
  | f :: fs => if lexLt f.rev e.rev then e :: f :: fs else f :: insertDesc e fs

/-- Insertion sort by revision descending. -/
def sortByRevDesc (l : List SymKeyFile) : List SymKeyFile :=
  l.foldr insertDesc []

/-- Modelled from the spec: `get_key_revisions` (keys/mod.rs is not among
the available sources) enumerates the `name-revision` identities of all
cached key files for the given name, sorted by revision descending. -/
def get_key_revisions (name : List Nat) (cache : List SymKeyFile) :
    Except Error (List (List Nat)) :=
  .ok ((sortByRevDesc (cache.filter (fun e => e.name == name))).map
    (fun e => e.name ++ 45 :: e.rev))

/-- Modelled from the spec: the shared 4-line key file codec (`HabitatKey`
in keys/mod.rs, not among the available sources): banner, identity line,
blank delimiter, base64 payload; a missing line or a banner differing from
the expected literal is a format failure naming the line, and a payload
that does not decode is a decode failure. Returns the decoded payload. -/
def habitatKeyParse (c : List Nat) : Except Error (List Nat) :=
  let l1 := (readLine c).1
  let r1 := (readLine c).2
  if l1 = [] then .error (.malformedKeyFile 1)
  else if trimB l1 = SECRET_SYM_KEY_VERSION then
    let l2 := (readLine r1).1
    let r2 := (readLine r1).2
    if l2 = [] then .error (.malformedKeyFile 2)
    else
      let l3 := (readLine r2).1
      let r3 := (readLine r2).2
      if l3 = [] then .error (.malformedKeyFile 3)
      else
        let l4 := (readLine r3).1
        if l4 = [] then .error (.malformedKeyFile 4)
        else
          match b64decode (trimB l4) with
          | some bytes => .ok bytes
          | none => .error .keyPayloadDecodeError
  else .error (.malformedKeyFile 1)

/-- Modelled from the spec: `SymSecretKey::from_slice` of libsodium,
accepting exactly 32-byte key material. -/
def symSecretKeyFromSlice (l : List Nat) : Option (List Nat) :=
  if l.length = SYM_KEY_LEN then some l else none

/-- Locate the cached key file whose filename identity equals the given
`name-revision` string. -/
def findKeyFile (cache : List SymKeyFile) (nwr : List Nat) :
    Option SymKeyFile :=
  cache.find? (fun e => e.name ++ 45 :: e.rev == nwr)

/-- Embedding of `get_secret_key` (cache.rs and ring_key.rs): read the
secret sym key file for the identity, parse it with the key codec and
build the secret key from the payload; a missing file is an I/O-class
failure and an ill-sized payload the read-sym-secret-key error. -/
def get_secret_key (nwr : List Nat) (cache : List SymKeyFile) :
    Except Error (List Nat) :=
  match findKeyFile cache nwr with
  | none => .error (.keyFileNotFound nwr)
  | some e =>
    match habitatKeyParse e.content with
    | .error err => .error err
    | .ok bytes =>
      match symSecretKeyFromSlice bytes with
      | some sk => .ok sk
      | none => .error (.cantReadSymSecretKey nwr)

/-- Embedding of `RingKey::from_raw` (ring_key.rs test support, used by
cache.rs `get_pair_for`): the public slot is populated with unit. -/
def RingKey.from_raw (name rev : List Nat) (secret : Option (List Nat)) :
    RingKey :=
  ⟨name, rev, some (), secret⟩

/-- Embedding of cache.rs `KeyCache::get_pair_for`: parse the identity,
read the secret key, and build the ring key via `RingKey::from_raw`; a
failing secret key read becomes the no-secret-keys-found error. -/
def cache_get_pair_for (cache : List SymKeyFile) (nwr : List Nat) :
    Except Error RingKey :=
  match parseNamedRevision nwr with
  | .error e => .error e
  | .ok nr =>
    match get_secret_key nwr cache with
    | .ok sk => .ok (RingKey.from_raw nr.name nr.revision (some sk))
    | .error _ => .error (.noSecretKeysFound nwr)

/-- Embedding of ring_key.rs `RingKey::get_pair_for`: identical to the
cache.rs loader except that the ring key is built with an absent public
slot. -/
def RingKey.get_pair_for (nwr : List Nat) (cache : List SymKeyFile) :
    Except Error RingKey :=
  match parseNamedRevision nwr with
  | .error e => .error e
  | .ok nr =>
    match get_secret_key nwr cache with
    | .ok sk => .ok ⟨nr.name, nr.revision, none, some sk⟩
    | .error _ => .error (.noSecretKeysFound nwr)

/-- The source's for-loop with early error return over the revision list:
read each pair, propagating the first failure. -/
def mapExcept (f : List Nat → Except Error RingKey) :
    List (List Nat) → Except Error (List RingKey)
  | [] => .ok []
  | x :: t =>
    match f x with
    | .error e => .error e
    | .ok y =>
      match mapExcept f t with
      | .error e => .error e
      | .ok ys => .ok (y :: ys)

/-- Embedding of cache.rs `get_pairs_for`: read every revision of the
name, in descending revision order. -/
def get_pairs_for (name : List Nat) (cache : List SymKeyFile) :
    Except Error (List RingKey) :=
  match get_key_revisions name cache with
  | .error e => .error e
  | .ok revs => mapExcept (cache_get_pair_for cache) revs

/-- Embedding of cache.rs `latest_ring_key_revision`: all pairs for the
name, failing with the no-revisions error when there are none, otherwise
the first (most recent). -/
def latest_ring_key_revision (name : List Nat) (cache : List SymKeyFile) :
    Except Error RingKey :=
  match get_pairs_for name cache with
  | .error e => .error e
  | .ok [] => .error (.noRevisionsFound name)
  | .ok (k :: _) => .ok k

/-- C5: `latest_ring_key_revision(name)` fails with the no-revisions-found
error when the cache holds no key files for the name; when the cache holds
two revisions of the name written at distinct times (so with distinct,
chronologically ordered revision strings) it returns the key with the
more recent revision. -/
theorem C5_latest_revision (name : List Nat) (cache : List SymKeyFile) :
    (cache.filter (fun e => e.name == name) = [] →
      latest_ring_key_revision name cache = .error (.noRevisionsFound name)) ∧
    (∀ e1 e2 b1 b2,
      (cache.filter (fun e => e.name == name) = [e1, e2] ∨
        cache.filter (fun e => e.name == name) = [e2, e1]) →
      lexLt e1.rev e2.rev = true →
      name ≠ [] →
      validRevision e1.rev = true → validRevision e2.rev = true →
      findKeyFile cache (name ++ 45 :: e1.rev) = some e1 →
      findKeyFile cache (name ++ 45 :: e2.rev) = some e2 →
      habitatKeyParse e1.content = .ok b1 → b1.length = SYM_KEY_LEN →
      habitatKeyParse e2.content = .ok b2 → b2.length = SYM_KEY_LEN →
      latest_ring_key_revision name cache =
        .ok (RingKey.from_raw name e2.rev (some b2))) := by
  constructor
  · intro hf
    simp [latest_ring_key_revision, get_pairs_for, get_key_revisions, hf,
      sortByRevDesc, mapExcept]
  · intro e1 e2 b1 b2 hfilter hlt hn hr1 hr2 hfind1 hfind2 hp1 hl1 hp2 hl2
    have hm1 : e1 ∈ cache.filter (fun e => e.name == name) := by
      rcases hfilter with hf | hf <;> rw [hf] <;> simp
    have hm2 : e2 ∈ cache.filter (fun e => e.name == name) := by
      rcases hfilter with hf | hf <;> rw [hf] <;> simp
    have hname1 : e1.name = name := by
      have := (List.mem_filter.mp hm1).2
      simpa using this
    have hname2 : e2.name = name := by
      have := (List.mem_filter.mp hm2).2
      simpa using this
    have hasym : lexLt e2.rev e1.rev = false := lexLt_asymm _ _ hlt
    have hsort : sortByRevDesc (cache.filter (fun e => e.name == name)) =
        [e2, e1] := by
      rcases hfilter with hf | hf <;> rw [hf]
      · simp [sortByRevDesc, insertDesc, hasym]
      · simp [sortByRevDesc, insertDesc, hlt]
    have hrevs : get_key_revisions name cache =
        .ok [name ++ 45 :: e2.rev, name ++ 45 :: e1.rev] := by
      simp [get_key_revisions, hsort, hname1, hname2]
    have hsk2 : get_secret_key (name ++ 45 :: e2.rev) cache = .ok b2 := by
      simp [get_secret_key, hfind2, hp2, symSecretKeyFromSlice, hl2]
    have hsk1 : get_secret_key (name ++ 45 :: e1.rev) cache = .ok b1 := by
      simp [get_secret_key, hfind1, hp1, symSecretKeyFromSlice, hl1]
    have hg2 : cache_get_pair_for cache (name ++ 45 :: e2.rev) =
        .ok (RingKey.from_raw name e2.rev (some b2)) := by
      simp [cache_get_pair_for,
        parseNamedRevision_render name e2.rev hn hr2, hsk2]
    have hg1 : cache_get_pair_for cache (name ++ 45 :: e1.rev) =
        .ok (RingKey.from_raw name e1.rev (some b1)) := by
      simp [cache_get_pair_for,
        parseNamedRevision_render name e1.rev hn hr1, hsk1]
    simp [latest_ring_key_revision, get_pairs_for, hrevs, mapExcept, hg2, hg1]

/-- A well-formed secret ring key file body for the witness caches:
banner, identity line, blank delimiter and a 32-byte base64 payload. -/
def ringFileContent (nwr : List Nat) : List Nat :=
  SECRET_SYM_KEY_VERSION ++
    10 :: (nwr ++ 10 :: 10 :: b64encode (List.replicate 32 0))

/-- A concrete two-revision witness cache for the ring key `beyonce`. -/
def witnessRingCache : List SymKeyFile :=
  [⟨strB "beyonce", strB "20160504220722",
      ringFileContent (strB "beyonce-20160504220722")⟩,
    ⟨strB "beyonce", strB "20160504220723",
      ringFileContent (strB "beyonce-20160504220723")⟩]

/-- Witness for C5: on the concrete two-revision cache the later revision
is returned, and an empty cache yields the no-revisions-found error. -/
theorem C5_latest_revision_witness :
    latest_ring_key_revision (strB "beyonce") witnessRingCache =
        .ok (RingKey.from_raw (strB "beyonce") (strB "20160504220723")
          (some (List.replicate 32 0))) ∧
      latest_ring_key_revision (strB "nope") [] =
        .error (.noRevisionsFound (strB "nope")) :=
  ⟨(C5_latest_revision (strB "beyonce") witnessRingCache).2
      ⟨strB "beyonce", strB "20160504220722",
        ringFileContent (strB "beyonce-20160504220722")⟩
      ⟨strB "beyonce", strB "20160504220723",
        ringFileContent (strB "beyonce-20160504220723")⟩
      (List.replicate 32 0) (List.replicate 32 0)
      (Or.inl (by decide)) (by decide) (by decide) (by decide) (by decide)
      (by decide) (by decide) (by decide) (by decide) (by decide) (by decide),
    (C5_latest_revision (strB "nope") []).1 (by decide)⟩

theorem mapExcept_ok_forall (f : List Nat → Except Error RingKey)
    (l : List (List Nat)) :
    ∀ ys, mapExcept f l = .ok ys → ∀ x ∈ l, isOkE (f x) = true := by
  induction l with
  | nil =>
    intro ys h x hx
    simp at hx
  | cons a t ih =>
    intro ys h x hx
    cases hfa : f a with
    | error e =>
      simp only [mapExcept, hfa] at h
      exact Except.noConfusion h
    | ok y =>
      cases hmt : mapExcept f t with
      | error e =>
        simp only [mapExcept, hfa, hmt] at h
        exact Except.noConfusion h
      | ok ys2 =>
        rcases List.mem_cons.mp hx with hx | hx
        · subst hx
          simp [isOkE, hfa]
        · exact ih ys2 hmt x hx

/-- C9: the latest-revision lookup parses every cached revision of the
name, not only the most recent: whenever any enumerated revision fails to
load, the whole lookup fails, regardless of the state of the others. -/
theorem C9_every_revision_parsed (name : List Nat) (cache : List SymKeyFile)
    (nwr : List Nat) (revs : List (List Nat))
    (hrevs : get_key_revisions name cache = .ok revs)
    (hmem : nwr ∈ revs)
    (hbad : isOkE (cache_get_pair_for cache nwr) = false) :
    isOkE (latest_ring_key_revision name cache) = false := by
  cases hres : get_pairs_for name cache with
  | error e => simp [latest_ring_key_revision, hres, isOkE]
  | ok l =>
    have hmap : mapExcept (cache_get_pair_for cache) revs = .ok l := by
      rw [← hres]
      simp [get_pairs_for, hrevs]
    have hok := mapExcept_ok_forall _ revs l hmap nwr hmem
    rw [hbad] at hok
    exact absurd hok (by simp)

/-- A concrete cache whose older `beyonce` revision file is malformed
(empty) while the latest revision file is valid. -/
def witnessRingCacheBad : List SymKeyFile :=
  [⟨strB "beyonce", strB "20160504220722", []⟩,
    ⟨strB "beyonce", strB "20160504220723",
      ringFileContent (strB "beyonce-20160504220723")⟩]

/-- Witness for C9: with a malformed older revision and a valid latest
revision, the latest-revision lookup fails. -/
theorem C9_every_revision_parsed_witness :
    isOkE (latest_ring_key_revision (strB "beyonce") witnessRingCacheBad) =
      false :=
  C9_every_revision_parsed (strB "beyonce") witnessRingCacheBad
    (strB "beyonce-20160504220722")
    [strB "beyonce" ++ 45 :: strB "20160504220723",
      strB "beyonce" ++ 45 :: strB "20160504220722"]
    (by decide) (by decide) (by decide)

/-- C10: every ring key built by `RingKey::new` has its public slot
populated with unit, so the public accessor succeeds on it, while every
ring key built by `RingKey::get_pair_for` (the ring_key.rs cache loader)
has an absent public slot, so the public accessor fails on it with the
missing-component error naming the identity. -/
theorem C10_public_slot :
    (∀ name rev genKey, (RingKey.new name rev genKey).publicOf = .ok ()) ∧
    (∀ cache nwr k, RingKey.get_pair_for nwr cache = .ok k →
      k.public = none ∧
        k.publicOf = .error (.missingPublicKey k.name_with_rev)) := by
  constructor
  · intro name rev genKey
    rfl
  · intro cache nwr k h
    cases hp : parseNamedRevision nwr with
    | error e =>
      simp only [RingKey.get_pair_for, hp] at h
      exact Except.noConfusion h
    | ok nr =>
      cases hs : get_secret_key nwr cache with
      | error e =>
        simp only [RingKey.get_pair_for, hp, hs] at h
        exact Except.noConfusion h
      | ok sk =>
        simp only [RingKey.get_pair_for, hp, hs] at h
        cases h
        exact ⟨rfl, rfl⟩

/-- Witness for C10 at a freshly generated key and a concretely loaded
key. -/
theorem C10_public_slot_witness :
    (RingKey.new (strB "beyonce") (strB "20160504220722")
        (List.replicate 32 5)).publicOf = .ok () ∧
      ((⟨strB "beyonce", strB "20160504220723", none,
          some (List.replicate 32 0)⟩ : RingKey).public = none ∧
        RingKey.publicOf
            ⟨strB "beyonce", strB "20160504220723", none,
              some (List.replicate 32 0)⟩ =
          .error (.missingPublicKey (RingKey.name_with_rev
            ⟨strB "beyonce", strB "20160504220723", none,
              some (List.replicate 32 0)⟩))) :=
  ⟨C10_public_slot.1 (strB "beyonce") (strB "20160504220722")
      (List.replicate 32 5),
    C10_public_slot.2 witnessRingCache (strB "beyonce-20160504220723")
      ⟨strB "beyonce", strB "20160504220723", none,
        some (List.replicate 32 0)⟩
      (by decide)⟩
